import Mathlib

/-!
Shallow embedding of `src/auto_routes.py`: a generic CRUD router over a
SQLModel-backed store, fronted by a read-through diskcache, with optional
token sessions.  Entities are modelled as attribute association lists
(the Python objects are accessed only through `getattr`/`setattr`/
`model_dump`, so an entity and its serialized dict coincide).  The
backing store is a row list plus an id counter (the relational engine is
an external collaborator; primary-key assignment is modelled as the
counter).  Routes are pure state transformers `state → response × state`;
the per-model semaphore only bounds concurrency and does not affect the
sequential semantics modelled here.
-/

namespace AutoRoutes

/-- Attribute values carried by entities (ints and strings suffice for the
claims under study). -/
inductive Val where
  | vnat (n : Nat)
  | vstr (s : String)
deriving DecidableEq, Repr

abbrev Field := String

/-- An entity is its attribute mapping, `"id"` included: the code touches
items only via `getattr`/`setattr` and serializes them with `model_dump`,
which yields exactly this mapping. -/
abbrev Entity := List (Field × Val)

/-- `getattr(e, f)` as an option (the code only reads declared fields). -/
def getattrOpt (e : Entity) (f : Field) : Option Val :=
  e.lookup f

/-- Python `hasattr(item, key)`. -/
def hasattrB (e : Entity) (f : Field) : Bool :=
  (getattrOpt e f).isSome

/-- Python `setattr(item, key, value)`: overwrite the attribute in place,
appending when absent (the code only sets declared or existing keys). -/
def setattrE (e : Entity) (f : Field) (v : Val) : Entity :=
  match e with
  | [] => [(f, v)]
  | (k, w) :: rest => if k = f then (f, v) :: rest else (k, w) :: setattrE rest f v

@[simp] theorem getattrOpt_setattrE_self (e : Entity) (f : Field) (v : Val) :
    getattrOpt (setattrE e f v) f = some v := by
  induction e with
  | nil => simp [setattrE, getattrOpt, List.lookup_cons]
  | cons kv rest ih =>
    obtain ⟨k, w⟩ := kv
    by_cases h : k = f
    · simp [setattrE, h, getattrOpt, List.lookup_cons]
    · simp [setattrE, h, getattrOpt, List.lookup_cons,
        beq_false_of_ne (Ne.symm h)] at ih ⊢
      exact ih

theorem getattrOpt_setattrE_ne (e : Entity) {f g : Field} (v : Val) (h : g ≠ f) :
    getattrOpt (setattrE e f v) g = getattrOpt e g := by
  induction e with
  | nil => simp [setattrE, getattrOpt, List.lookup_cons, beq_false_of_ne h]
  | cons kv rest ih =>
    obtain ⟨k, w⟩ := kv
    by_cases hk : k = f
    · subst hk
      simp [setattrE, getattrOpt, List.lookup_cons, beq_false_of_ne h]
    · simp [setattrE, hk, getattrOpt, List.lookup_cons] at ih ⊢
      cases hkg : (g == k) <;> simp [hkg, ih]

/-- `setattr` on an existing attribute never changes which attributes exist. -/
theorem hasattrB_setattrE (e : Entity) (f g : Field) (v : Val) :
    hasattrB e f = true → hasattrB (setattrE e f v) g = hasattrB e g := by
  intro hf
  by_cases h : g = f
  · subst h
    simp [hasattrB] at hf ⊢
    exact hf
  · simp [hasattrB, getattrOpt_setattrE_ne e v h]

/-! ### The entity cache (`cache = Cache("./cache")`)

diskcache maps string keys to serialized values with an optional
expiration.  Entries never share a key, which `cacheSet` maintains by
erasing the key first. -/

/-- A cached value: a serialized entity (`model_dump`), a serialized
entity list, or a count. -/
inductive CacheVal where
  | ent (e : Entity)
  | list (es : List Entity)
  | cnt (n : Nat)
deriving DecidableEq, Repr

structure CacheEntry where
  val : CacheVal
  expire : Option Nat
deriving DecidableEq, Repr

abbrev CacheState := List (String × CacheEntry)

/-- `cache.get(key)` (expiry is irrelevant to the immediate post-write
reads the claims quantify over, so entries are looked up as stored). -/
def cacheGet (c : CacheState) (k : String) : Option CacheVal :=
  (c.lookup k).map (·.val)

/-- `cache.delete(key)`. -/
def cacheDelete (c : CacheState) (k : String) : CacheState :=
  c.filter (fun p => p.1 != k)

/-- `cache.set(key, value)` / `cache.set(key, value, expire=ttl)`. -/
def cacheSet (c : CacheState) (k : String) (v : CacheVal) (exp : Option Nat) : CacheState :=
  (k, ⟨v, exp⟩) :: cacheDelete c k

/-- The expiration `_set_cache` passes along: `if use_ttl and ttl:` uses
Python truthiness, so a configured ttl of `0` falls to the no-expiration
branch.  (`use_ttl` is `True` at every call site.) -/
def setCacheExpire (ttl : Option Nat) : Option Nat :=
  match ttl with
  | some t => if t = 0 then none else some t
  | none => none

/-- `_set_cache(key, value)`: serialization of an entity is its
`model_dump`, which in this model is the entity itself. -/
def setCache (ttl : Option Nat) (c : CacheState) (k : String) (v : CacheVal) : CacheState :=
  cacheSet c k v (setCacheExpire ttl)

/-- `_invalidate_all_cache()`: deletes exactly the two literal keys
`f"{model_name}_all"` and `f"{model_name}_count"`. -/
def invalidateAllCache (mn : String) (c : CacheState) : CacheState :=
  cacheDelete (cacheDelete c (mn ++ "_all")) (mn ++ "_count")

/-- Cache key `f"{model_name}_{item_id}"`. -/
def idKey (mn : String) (i : Nat) : String :=
  mn ++ "_" ++ toString i

/-- Cache key `f"{model_name}_all_{skip}_{limit}"`. -/
def allKey (mn : String) (skip limit : Nat) : String :=
  mn ++ "_all_" ++ toString skip ++ "_" ++ toString limit

/-- Cache key `f"{model_name}_count"`. -/
def countKey (mn : String) : String :=
  mn ++ "_count"

theorem lookup_cacheDelete (c : CacheState) (k k' : String) :
    (cacheDelete c k').lookup k = if k = k' then none else c.lookup k := by
  induction c with
  | nil => simp [cacheDelete]
  | cons p rest ih =>
    obtain ⟨key, entry⟩ := p
    by_cases hp : key = k'
    · subst hp
      by_cases hk : k = key
      · subst hk
        simpa [cacheDelete] using ih
      · simp [cacheDelete, List.lookup_cons, beq_false_of_ne hk, hk] at ih ⊢
        exact ih
    · by_cases hk : k = key
      · subst hk
        simp [cacheDelete, bne_iff_ne, hp, List.lookup_cons]
      · simp [cacheDelete, bne_iff_ne, hp, List.lookup_cons, beq_false_of_ne hk] at ih ⊢
        exact ih

@[simp] theorem cacheGet_cacheSet_self (c : CacheState) (k : String) (v : CacheVal)
    (exp : Option Nat) : cacheGet (cacheSet c k v exp) k = some v := by
  simp [cacheGet, cacheSet, List.lookup_cons]

theorem cacheGet_cacheSet_ne (c : CacheState) {k k' : String} (v : CacheVal)
    (exp : Option Nat) (h : k ≠ k') : cacheGet (cacheSet c k' v exp) k = cacheGet c k := by
  simp [cacheGet, cacheSet, List.lookup_cons, beq_false_of_ne h, lookup_cacheDelete, h]

theorem cacheGet_cacheDelete (c : CacheState) (k k' : String) :
    cacheGet (cacheDelete c k') k = if k = k' then none else cacheGet c k := by
  by_cases h : k = k' <;> simp [cacheGet, lookup_cacheDelete, h]

/-! ### The backing store

The relational engine is an external collaborator; it is modelled as the
row list in insertion order plus the autoincrement counter that
`session.refresh` reveals as the assigned primary key. -/

structure DB where
  rows : List Entity
  nextId : Nat
deriving Repr

/-- Row predicate for a primary-key lookup. -/
def rowHasId (i : Nat) (e : Entity) : Bool :=
  getattrOpt e "id" == some (.vnat i)

/-- `session.get(model, i)`. -/
def dbGet (db : DB) (i : Nat) : Option Entity :=
  db.rows.find? (rowHasId i)

/-- `session.delete(item)` for the row found under id `i` (with autoflush,
the deletion is visible to later lookups in the same session). -/
def dbDeleteRow (db : DB) (i : Nat) : DB :=
  ⟨db.rows.eraseP (rowHasId i), db.nextId⟩

/-- Committing a mutation of the row that was loaded under id `i`. -/
def dbReplace (db : DB) (i : Nat) (e : Entity) : DB :=
  ⟨db.rows.map (fun r => if rowHasId i r then e else r), db.nextId⟩

/-- `session.add` + `commit` + `refresh` for a new row: the store appends
the row and assigns the next primary key. -/
def dbInsert (db : DB) (e : Entity) : Entity × DB :=
  let e' := setattrE e "id" (.vnat db.nextId)
  (e', ⟨db.rows ++ [e'], db.nextId + 1⟩)

/-- The global state a CRUD route touches: backing store plus entity cache. -/
structure SysState where
  db : DB
  cache : CacheState
deriving Repr

/-- Errors surfaced by the routes as HTTP failures. -/
inductive Err where
  | notFound
  | badRequest
  | unauthorized
deriving DecidableEq, Repr

/-! ### CRUD routes

Each route is a pure transformer of `SysState`, returning the response
(or error) alongside the resulting state.  Raising `HTTPException`
leaves the state as it was at the raise point. -/

/-- `create_item`: insert, commit, refresh, then
`_invalidate_all_cache()`, `_delete_cache(f"{model_name}_{item.id}")`,
`_set_cache(f"{model_name}_{item.id}", item)`, return the item. -/
def createItem (mn : String) (ttl : Option Nat) (st : SysState) (item : Entity) :
    Entity × SysState :=
  let (item', db') := dbInsert st.db item
  let i := st.db.nextId
  let c1 := invalidateAllCache mn st.cache
  let c2 := cacheDelete c1 (idKey mn i)
  let c3 := setCache ttl c2 (idKey mn i) (.ent item')
  (item', ⟨db', c3⟩)

/-- `read_item`: cache hit returns the cached value as-is; on miss, a
store miss is 404, a store hit populates the per-id key and returns. -/
def readItem (mn : String) (ttl : Option Nat) (st : SysState) (i : Nat) :
    Except Err CacheVal × SysState :=
  match cacheGet st.cache (idKey mn i) with
  | some v => (.ok v, st)
  | none =>
    match dbGet st.db i with
    | none => (.error .notFound, st)
    | some item => (.ok (.ent item), ⟨st.db, setCache ttl st.cache (idKey mn i) (.ent item)⟩)

/-- `read_items`: pagination window under key
`f"{model_name}_all_{skip}_{limit}"`; `offset(skip).limit(limit)` is
drop/take on the rows in insertion order. -/
def readItems (mn : String) (ttl : Option Nat) (st : SysState) (skip limit : Nat) :
    CacheVal × SysState :=
  match cacheGet st.cache (allKey mn skip limit) with
  | some v => (v, st)
  | none =>
    let items := (st.db.rows.drop skip).take limit
    (.list items, ⟨st.db, setCache ttl st.cache (allKey mn skip limit) (.list items)⟩)

/-- `count_items`: count under key `f"{model_name}_count"`. -/
def countItems (mn : String) (ttl : Option Nat) (st : SysState) :
    CacheVal × SysState :=
  match cacheGet st.cache (countKey mn) with
  | some v => (v, st)
  | none =>
    let n := st.db.rows.length
    (.cnt n, ⟨st.db, setCache ttl st.cache (countKey mn) (.cnt n)⟩)

/-- The `for key, value in update_data.items(): setattr(item, key, value)`
loop of `update_item`; `upd` is `item_data.model_dump(exclude_unset=True)`
in iteration order. -/
def applyUpdate (item : Entity) (upd : List (Field × Val)) : Entity :=
  upd.foldl (fun acc kv => setattrE acc kv.1 kv.2) item

/-- `update_item`: load by id (404 if absent), apply the set fields,
commit, then delete the per-id key, invalidate aggregates, repopulate
the per-id key with the refreshed entity. -/
def updateItem (mn : String) (ttl : Option Nat) (st : SysState) (i : Nat)
    (upd : List (Field × Val)) : Except Err Entity × SysState :=
  match dbGet st.db i with
  | none => (.error .notFound, st)
  | some item =>
    let item' := applyUpdate item upd
    let db' := dbReplace st.db i item'
    let c1 := cacheDelete st.cache (idKey mn i)
    let c2 := invalidateAllCache mn c1
    let c3 := setCache ttl c2 (idKey mn i) (.ent item')
    (.ok item', ⟨db', c3⟩)

/-- The per-entry body of the `update_items` loop:
`if key != "id" and hasattr(item, key): setattr(item, key, value)`,
over the entry's items in iteration order. -/
def applyBulkEntry (item : Entity) (data : List (Field × Val)) : Entity :=
  data.foldl
    (fun acc kv => if kv.1 ≠ "id" ∧ hasattrB acc kv.1 = true then setattrE acc kv.1 kv.2 else acc)
    item

/-- `delete_item`: load by id (404 if absent), delete the row, then
delete the per-id key and invalidate aggregates. -/
def deleteItem (mn : String) (st : SysState) (i : Nat) : Except Err Unit × SysState :=
  match dbGet st.db i with
  | none => (.error .notFound, st)
  | some _ =>
    let db' := dbDeleteRow st.db i
    let c1 := cacheDelete st.cache (idKey mn i)
    let c2 := invalidateAllCache mn c1
    (.ok (), ⟨db', c2⟩)

/-- Diagnostics the bulk delete emits through the logger. -/
inductive LogEvent where
  | skipMissing (i : Nat)
  | deletedReport (deleted requested : Nat)
deriving DecidableEq, Repr

/-- The id loop of `delete_items`: present ids are deleted (row and
per-id cache key) and counted, missing ids are logged and skipped. -/
def deleteItemsLoop (mn : String) (st : SysState) :
    List Nat → SysState × Nat × List LogEvent
  | [] => (st, 0, [])
  | i :: rest =>
    match dbGet st.db i with
    | some _ =>
      let st' : SysState := ⟨dbDeleteRow st.db i, cacheDelete st.cache (idKey mn i)⟩
      let (stf, cnt, logs) := deleteItemsLoop mn st' rest
      (stf, cnt + 1, logs)
    | none =>
      let (stf, cnt, logs) := deleteItemsLoop mn st rest
      (stf, cnt, .skipMissing i :: logs)

/-- `delete_items`: empty id list is rejected with 400 before any work;
otherwise the loop runs, aggregates are invalidated, and the count is
logged.  The route's response is `204 No Content`, modelled as `Unit`. -/
def deleteItems (mn : String) (st : SysState) (ids : List Nat) :
    Except Err Unit × SysState × List LogEvent :=
  if ids.isEmpty then (.error .badRequest, st, [])
  else
    let (st1, cnt, logs) := deleteItemsLoop mn st ids
    (.ok (), ⟨st1.db, invalidateAllCache mn st1.cache⟩,
      logs ++ [.deletedReport cnt ids.length])

/-! ### Sessions, login, logout, token verification

Authorization header values and tokens are character lists, so that
Python `str.replace` (which removes every occurrence, left to right)
can be modelled by structural recursion. -/

abbrev Chars := List Char

/-- `s.startswith(pat)` with the pattern first. -/
def startsWithL (pat s : Chars) : Bool :=
  match pat, s with
  | [], _ => true
  | _ :: _, [] => false
  | p :: ps, c :: cs => p = c && startsWithL ps cs

/-- Python `s.replace(pat, "")`: remove every non-overlapping occurrence
of `pat`, scanning left to right.  (Python never calls this with an
empty pattern here; the guard keeps the recursion total.) -/
def stripAllOcc (pat : Chars) : Chars → Chars
  | [] => []
  | c :: rest =>
    if pat ≠ [] ∧ startsWithL pat (c :: rest) = true then
      stripAllOcc pat ((c :: rest).drop pat.length)
    else
      c :: stripAllOcc pat rest
termination_by s => s.length
decreasing_by
  · rename_i h
    have hlen : 1 ≤ pat.length := by
      cases pat with
      | nil => exact absurd rfl h.1
      | cons p ps => simp
    simp [List.length_drop]
    omega
  · simp

/-- Whether `pat` occurs as a contiguous substring of `s`. -/
def hasOcc (pat : Chars) : Chars → Bool
  | [] => startsWithL pat []
  | c :: rest => startsWithL pat (c :: rest) || hasOcc pat rest

/-- The literal `"Bearer "`. -/
def bearerChars : Chars := "Bearer ".toList

/-- `authorization.replace("Bearer ", "")`: the token the routes look up. -/
def tokenOf (auth : Chars) : Chars :=
  stripAllOcc bearerChars auth

/-- A session entry: the login-field snapshot and its expiration. -/
structure SessEntry where
  data : List (Field × Val)
  expire : Nat
deriving DecidableEq, Repr

abbrev SessionsState := List (Chars × SessEntry)

/-- `sessions_cache.get(token)`. -/
def sessionsGet (s : SessionsState) (tok : Chars) : Option (List (Field × Val)) :=
  (s.lookup tok).map (·.data)

/-- `sessions_cache.delete(token)`. -/
def sessionsDelete (s : SessionsState) (tok : Chars) : SessionsState :=
  s.filter (fun p => p.1 != tok)

/-- `sessions_cache.set(token, data, expire=login_ttl)`. -/
def sessionsSet (s : SessionsState) (tok : Chars) (entry : SessEntry) : SessionsState :=
  (tok, entry) :: sessionsDelete s tok

/-- The dynamic login filter: conjunction of equality on every login field. -/
def loginMatches (loginFields : List Field) (data : List (Field × Val)) (e : Entity) : Bool :=
  loginFields.all (fun f => getattrOpt e f == data.lookup f)

/-- `{f: getattr(user, f) for f in login_fields}` (configuration
validates that every login field exists on the model). -/
def restrictFields (loginFields : List Field) (e : Entity) : List (Field × Val) :=
  loginFields.map (fun f => (f, (getattrOpt e f).getD (.vstr "")))

/-- `login_route`: `.first()` match on the conjunctive filter, 401 when
none; otherwise mint a token (the `secrets.token_hex(16)` value is an
external random input, passed in as `token`), store the login-field
snapshot with `expire=login_ttl`, and return token and snapshot. -/
def loginRoute (loginFields : List Field) (loginTtl : Nat) (db : DB)
    (sess : SessionsState) (data : List (Field × Val)) (token : Chars) :
    Except Err (Chars × List (Field × Val)) × SessionsState :=
  match db.rows.find? (loginMatches loginFields data) with
  | none => (.error .unauthorized, sess)
  | some user =>
    let snapshot := restrictFields loginFields user
    (.ok (token, snapshot), sessionsSet sess token ⟨snapshot, loginTtl⟩)

/-- `verify_token`: 401 unless the header starts with `"Bearer "`; the
looked-up token is `authorization.replace("Bearer ", "")`; 401 when the
session store has no entry, else the stored snapshot. -/
def verifyToken (sess : SessionsState) (auth : Chars) :
    Except Err (List (Field × Val)) :=
  if startsWithL bearerChars auth then
    match sessionsGet sess (tokenOf auth) with
    | none => .error .unauthorized
    | some d => .ok d
  else .error .unauthorized

/-- `logout_route`: same header check and token derivation; delete the
entry when present, 401 otherwise. -/
def logoutRoute (sess : SessionsState) (auth : Chars) :
    Except Err Unit × SessionsState :=
  if startsWithL bearerChars auth then
    if (sess.lookup (tokenOf auth)).isSome then
      (.ok (), sessionsDelete sess (tokenOf auth))
    else (.error .unauthorized, sess)
  else (.error .unauthorized, sess)

/-- Spec-side expiration rule, stated from the spec's words for
comparison with `setCacheExpire`: "populate the cache with the
configured time-to-live (or permanently if none configured)" — the
configured ttl is used as-is whenever one is configured. -/
def specSetCacheExpire (ttl : Option Nat) : Option Nat :=
  ttl

/-- Concrete fixture row. -/
def rowA : Entity := [("id", .vnat 1), ("name", .vstr "A")]

/-- Concrete fixture row. -/
def rowB : Entity := [("id", .vnat 2), ("name", .vstr "B")]

/-- Fixture state whose cache holds entries for all three read keys. -/
def stHit : SysState :=
  ⟨⟨[rowA], 2⟩,
   [(idKey "item" 1, ⟨.ent rowA, none⟩),
    (allKey "item" 0 100, ⟨.list [rowA], none⟩),
    (countKey "item", ⟨.cnt 1, none⟩)]⟩

/-- Fixture state with an empty cache. -/
def stMiss : SysState := ⟨⟨[rowA], 2⟩, []⟩

/-- Fixture user row for the login claims. -/
def rowU : Entity := [("id", .vnat 1), ("email", .vstr "a@x.com")]

end AutoRoutes

namespace AutoRoutes

/-! ## Claim theorems and supporting lemmas -/

/-- **C1** (code_bug evidence).  The claim says no stale aggregate cache
entry — any pagination-window listing key or the count key — survives a
write's invalidation.  `_invalidate_all_cache` deletes only the literal
keys `{type}_all` and `{type}_count`, while listings are cached under
`{type}_all_{skip}_{limit}`, so a cached pagination window survives a
create: with one row `A` cached for the window `(skip=0, limit=100)`,
creating `B` leaves the stale window entry in place and a subsequent
`read_items` serves the one-row listing although the store has two rows. -/
theorem C1_stale_pagination_window_survives_create :
    (let st1 := (readItems "item" none ⟨⟨[rowA], 2⟩, []⟩ 0 100).2
     let st2 := (createItem "item" none st1 [("name", Val.vstr "B")]).2
     cacheGet st2.cache (allKey "item" 0 100) = some (.list [rowA])
       ∧ (readItems "item" none st2 0 100).1 = .list [rowA]
       ∧ st2.db.rows.length = 2) := by
  decide

/-- **C2**: after `create(e)` assigns id `i` (the store's next primary
key, fresh by the store invariant), `read_one(i)` returns the created
entity — served from the per-id cache entry populated at create time —
and the backing store also holds it under `i`. -/
theorem C2_create_then_read_one (mn : String) (ttl : Option Nat) (st : SysState)
    (item : Entity) (hfresh : ∀ e ∈ st.db.rows, rowHasId st.db.nextId e = false) :
    getattrOpt (createItem mn ttl st item).1 "id" = some (.vnat st.db.nextId)
    ∧ readItem mn ttl (createItem mn ttl st item).2 st.db.nextId
        = (.ok (.ent (createItem mn ttl st item).1), (createItem mn ttl st item).2)
    ∧ dbGet (createItem mn ttl st item).2.db st.db.nextId
        = some (createItem mn ttl st item).1 := by
  refine ⟨?_, ?_, ?_⟩
  · simp [createItem, dbInsert]
  · simp [createItem, dbInsert, readItem, setCache]
  · have hnone : st.db.rows.find? (rowHasId st.db.nextId) = none :=
      List.find?_eq_none.mpr (fun x hx => by simp [hfresh x hx])
    simp [createItem, dbInsert, dbGet, List.find?_append, hnone, List.find?, rowHasId]

/-- Closed witness for `C2_create_then_read_one`. -/
theorem C2_witness :
    getattrOpt (createItem "item" (some 60) ⟨⟨[rowA], 2⟩, []⟩ [("name", Val.vstr "B")]).1 "id"
        = some (.vnat 2)
    ∧ readItem "item" (some 60) (createItem "item" (some 60) ⟨⟨[rowA], 2⟩, []⟩
          [("name", Val.vstr "B")]).2 2
        = (.ok (.ent (createItem "item" (some 60) ⟨⟨[rowA], 2⟩, []⟩
            [("name", Val.vstr "B")]).1),
           (createItem "item" (some 60) ⟨⟨[rowA], 2⟩, []⟩ [("name", Val.vstr "B")]).2)
    ∧ dbGet (createItem "item" (some 60) ⟨⟨[rowA], 2⟩, []⟩ [("name", Val.vstr "B")]).2.db 2
        = some (createItem "item" (some 60) ⟨⟨[rowA], 2⟩, []⟩ [("name", Val.vstr "B")]).1 :=
  C2_create_then_read_one "item" (some 60) ⟨⟨[rowA], 2⟩, []⟩ [("name", Val.vstr "B")]
    (by decide)

theorem applyUpdate_cons (item : Entity) (k : Field) (v : Val) (rest : List (Field × Val)) :
    applyUpdate item ((k, v) :: rest) = applyUpdate (setattrE item k v) rest :=
  rfl

theorem getattrOpt_applyUpdate_not_mem (item : Entity) (upd : List (Field × Val))
    {f : Field} (hf : f ∉ upd.map Prod.fst) :
    getattrOpt (applyUpdate item upd) f = getattrOpt item f := by
  induction upd generalizing item with
  | nil => rfl
  | cons kv rest ih =>
    obtain ⟨k, v⟩ := kv
    simp only [List.map_cons, List.mem_cons, not_or] at hf
    rw [applyUpdate_cons, ih (setattrE item k v) hf.2,
      getattrOpt_setattrE_ne item v hf.1]

theorem getattrOpt_applyUpdate_mem (item : Entity) (upd : List (Field × Val))
    {f : Field} (hnd : (upd.map Prod.fst).Nodup) (hf : f ∈ upd.map Prod.fst) :
    getattrOpt (applyUpdate item upd) f = upd.lookup f := by
  induction upd generalizing item with
  | nil => simp at hf
  | cons kv rest ih =>
    obtain ⟨k, v⟩ := kv
    simp only [List.map_cons, List.nodup_cons] at hnd
    rw [applyUpdate_cons]
    by_cases hfk : f = k
    · subst hfk
      rw [getattrOpt_applyUpdate_not_mem (setattrE item f v) rest hnd.1]
      simp [List.lookup_cons]
    · simp only [List.map_cons, List.mem_cons] at hf
      rw [ih (setattrE item k v) hnd.2 (hf.resolve_left hfk)]
      simp [List.lookup_cons, beq_false_of_ne hfk]

/-- **C3**: when id `i` exists, `update(i, partial)` merges exactly the
explicitly set fields over the loaded entity: set fields take the
payload values, absent fields keep their pre-update values, the merged
entity is stored, and `read_one(i)` returns it (from the repopulated
per-id cache entry). -/
theorem C3_update_merges_partial (mn : String) (ttl : Option Nat) (st : SysState)
    (i : Nat) (upd : List (Field × Val)) (item : Entity)
    (hget : dbGet st.db i = some item) (hnd : (upd.map Prod.fst).Nodup) :
    (updateItem mn ttl st i upd).1 = .ok (applyUpdate item upd)
    ∧ (∀ f, f ∈ upd.map Prod.fst →
        getattrOpt (applyUpdate item upd) f = upd.lookup f)
    ∧ (∀ f, f ∉ upd.map Prod.fst →
        getattrOpt (applyUpdate item upd) f = getattrOpt item f)
    ∧ applyUpdate item upd ∈ (updateItem mn ttl st i upd).2.db.rows
    ∧ readItem mn ttl (updateItem mn ttl st i upd).2 i
        = (.ok (.ent (applyUpdate item upd)), (updateItem mn ttl st i upd).2) := by
  refine ⟨?_, fun f hf => getattrOpt_applyUpdate_mem item upd hnd hf,
    fun f hf => getattrOpt_applyUpdate_not_mem item upd hf, ?_, ?_⟩
  · simp [updateItem, hget]
  · have hmem : item ∈ st.db.rows := List.mem_of_find?_eq_some hget
    have hid : rowHasId i item = true := List.find?_some hget
    simp only [updateItem, hget, dbReplace]
    exact List.mem_map.mpr ⟨item, hmem, by simp [hid]⟩
  · simp [updateItem, hget, readItem, setCache]

/-- Closed witness for `C3_update_merges_partial`. -/
theorem C3_witness :
    (updateItem "item" none ⟨⟨[rowA], 2⟩, []⟩ 1 [("name", Val.vstr "A2")]).1
        = .ok (applyUpdate rowA [("name", Val.vstr "A2")])
    ∧ (∀ f, f ∈ ([("name", Val.vstr "A2")].map Prod.fst) →
        getattrOpt (applyUpdate rowA [("name", Val.vstr "A2")]) f
          = [("name", Val.vstr "A2")].lookup f)
    ∧ (∀ f, f ∉ ([("name", Val.vstr "A2")].map Prod.fst) →
        getattrOpt (applyUpdate rowA [("name", Val.vstr "A2")]) f = getattrOpt rowA f)
    ∧ applyUpdate rowA [("name", Val.vstr "A2")]
        ∈ (updateItem "item" none ⟨⟨[rowA], 2⟩, []⟩ 1 [("name", Val.vstr "A2")]).2.db.rows
    ∧ readItem "item" none
          (updateItem "item" none ⟨⟨[rowA], 2⟩, []⟩ 1 [("name", Val.vstr "A2")]).2 1
        = (.ok (.ent (applyUpdate rowA [("name", Val.vstr "A2")])),
           (updateItem "item" none ⟨⟨[rowA], 2⟩, []⟩ 1 [("name", Val.vstr "A2")]).2) :=
  C3_update_merges_partial "item" none ⟨⟨[rowA], 2⟩, []⟩ 1 [("name", Val.vstr "A2")] rowA
    (by decide) (by decide)

theorem find?_eraseP_of_countP_le_one {α : Type} (p : α → Bool) (l : List α)
    (h : l.countP p ≤ 1) : (l.eraseP p).find? p = none := by
  induction l with
  | nil => rfl
  | cons a l ih =>
    rw [List.countP_cons] at h
    cases hpa : p a with
    | true =>
      have h1 : l.countP p + 1 ≤ 1 := by simpa [hpa] using h
      have hz : l.countP p = 0 := by omega
      rw [List.eraseP_cons, hpa]
      exact List.find?_eq_none.mpr (fun x hx => by
        simpa using (List.countP_eq_zero.mp hz) x hx)
    | false =>
      rw [List.eraseP_cons, hpa]
      simp only [cond_false, List.find?_cons, hpa]
      exact ih (by simpa [hpa] using h)

theorem cacheGet_cacheDelete_of_none (c : CacheState) (k k' : String)
    (h : cacheGet c k = none) : cacheGet (cacheDelete c k') k = none := by
  rw [cacheGet_cacheDelete]
  split <;> simp [h]

/-- **C4**: for an id present in the store (uniquely, as a primary key),
`delete(i)` succeeds, a subsequent `read_one(i)` fails with 404, and no
cache entry under the per-id key `"{type}_{i}"` survives the deletion. -/
theorem C4_delete_then_read_not_found (mn : String) (ttl : Option Nat) (st : SysState)
    (i : Nat) (item : Entity) (hget : dbGet st.db i = some item)
    (huniq : st.db.rows.countP (rowHasId i) ≤ 1) :
    (deleteItem mn st i).1 = .ok ()
    ∧ cacheGet (deleteItem mn st i).2.cache (idKey mn i) = none
    ∧ readItem mn ttl (deleteItem mn st i).2 i
        = (.error .notFound, (deleteItem mn st i).2) := by
  have hkey : cacheGet (deleteItem mn st i).2.cache (idKey mn i) = none := by
    simp only [deleteItem, hget, invalidateAllCache]
    exact cacheGet_cacheDelete_of_none _ _ _
      (cacheGet_cacheDelete_of_none _ _ _ (by rw [cacheGet_cacheDelete]; simp))
  refine ⟨by simp [deleteItem, hget], hkey, ?_⟩
  have hdb : dbGet (deleteItem mn st i).2.db i = none := by
    simp only [deleteItem, hget]
    simp only [dbGet, dbDeleteRow]
    exact find?_eraseP_of_countP_le_one (rowHasId i) st.db.rows huniq
  rw [readItem, hkey, hdb]

/-- Closed witness for `C4_delete_then_read_not_found`. -/
theorem C4_witness :
    (deleteItem "item" ⟨⟨[rowA, rowB], 3⟩, []⟩ 1).1 = .ok ()
    ∧ cacheGet (deleteItem "item" ⟨⟨[rowA, rowB], 3⟩, []⟩ 1).2.cache (idKey "item" 1) = none
    ∧ readItem "item" none (deleteItem "item" ⟨⟨[rowA, rowB], 3⟩, []⟩ 1).2 1
        = (.error .notFound, (deleteItem "item" ⟨⟨[rowA, rowB], 3⟩, []⟩ 1).2) :=
  C4_delete_then_read_not_found "item" none ⟨⟨[rowA, rowB], 3⟩, []⟩ 1 rowA
    (by decide) (by decide)

/-- **C5, counterexample.**  The claim says a cache miss populates the
entry "with the configured time-to-live when one is configured".  With
`ttl=0` configured, `if use_ttl and ttl:` takes the falsy branch, so the
entry is stored with *no* expiration: the entry written by a
`read_item` miss under `ttl = some 0` carries `expire = none`, while the
spec-side rule would carry the configured `some 0`. -/
theorem C5_counterexample_ttl_zero :
    ((((readItem "item" (some 0) ⟨⟨[rowA], 2⟩, []⟩ 1).2.cache.lookup
        (idKey "item" 1)).map (·.expire)) = some none)
    ∧ setCacheExpire (some 0) ≠ specSetCacheExpire (some 0) := by
  decide

/-- **C5, amended**: read protocol for `read_item`, `read_items`,
`count_items` — on hit the cached value is returned and the state (hence
the backing store) is untouched; on miss the value is loaded from the
store, cached, and returned; the expiration written is the configured
ttl when a *nonzero* one is configured and no expiration otherwise (a
configured ttl of 0 is treated as no ttl). -/
theorem C5_read_through_protocol (mn : String) (ttl : Option Nat)
    (st1 st2 st3 st4 st5 st6 : SysState) (i skip limit : Nat)
    (v1 v2 v3 : CacheVal) (item : Entity) :
    (cacheGet st1.cache (idKey mn i) = some v1 →
      readItem mn ttl st1 i = (.ok v1, st1))
    ∧ (cacheGet st2.cache (idKey mn i) = none → dbGet st2.db i = some item →
      readItem mn ttl st2 i
        = (.ok (.ent item),
           ⟨st2.db, cacheSet st2.cache (idKey mn i) (.ent item) (setCacheExpire ttl)⟩))
    ∧ (cacheGet st3.cache (allKey mn skip limit) = some v2 →
      readItems mn ttl st3 skip limit = (v2, st3))
    ∧ (cacheGet st4.cache (allKey mn skip limit) = none →
      readItems mn ttl st4 skip limit
        = (.list ((st4.db.rows.drop skip).take limit),
           ⟨st4.db, cacheSet st4.cache (allKey mn skip limit)
              (.list ((st4.db.rows.drop skip).take limit)) (setCacheExpire ttl)⟩))
    ∧ (cacheGet st5.cache (countKey mn) = some v3 →
      countItems mn ttl st5 = (v3, st5))
    ∧ (cacheGet st6.cache (countKey mn) = none →
      countItems mn ttl st6
        = (.cnt st6.db.rows.length,
           ⟨st6.db, cacheSet st6.cache (countKey mn) (.cnt st6.db.rows.length)
              (setCacheExpire ttl)⟩))
    ∧ (∀ t : Nat, setCacheExpire (some (t + 1)) = some (t + 1))
    ∧ setCacheExpire none = none
    ∧ setCacheExpire (some 0) = none := by
  refine ⟨fun h1 => by rw [readItem, h1],
    fun h2 h2' => by rw [readItem, h2, h2']; rfl,
    fun h3 => by rw [readItems, h3],
    fun h4 => by rw [readItems, h4]; rfl,
    fun h5 => by rw [countItems, h5],
    fun h6 => by rw [countItems, h6]; rfl,
    fun t => by simp [setCacheExpire], rfl, rfl⟩

/-- Closed witness for `C5_read_through_protocol`. -/
theorem C5_witness :
    readItem "item" (some 60) stHit 1 = (.ok (.ent rowA), stHit)
    ∧ readItem "item" (some 60) stMiss 1
        = (.ok (.ent rowA),
           ⟨stMiss.db, cacheSet stMiss.cache (idKey "item" 1) (.ent rowA)
              (setCacheExpire (some 60))⟩)
    ∧ readItems "item" (some 60) stHit 0 100 = (.list [rowA], stHit)
    ∧ readItems "item" (some 60) stMiss 0 100
        = (.list ((stMiss.db.rows.drop 0).take 100),
           ⟨stMiss.db, cacheSet stMiss.cache (allKey "item" 0 100)
              (.list ((stMiss.db.rows.drop 0).take 100)) (setCacheExpire (some 60))⟩)
    ∧ countItems "item" (some 60) stHit = (.cnt 1, stHit)
    ∧ countItems "item" (some 60) stMiss
        = (.cnt stMiss.db.rows.length,
           ⟨stMiss.db, cacheSet stMiss.cache (countKey "item")
              (.cnt stMiss.db.rows.length) (setCacheExpire (some 60))⟩)
    ∧ setCacheExpire (some 60) = some 60 := by
  have h := C5_read_through_protocol "item" (some 60) stHit stMiss stHit stMiss stHit stMiss
    1 0 100 (.ent rowA) (.list [rowA]) (.cnt 1) rowA
  exact ⟨h.1 (by decide), h.2.1 (by decide) (by decide), h.2.2.1 (by decide),
    h.2.2.2.1 (by decide), h.2.2.2.2.1 (by decide), h.2.2.2.2.2.1 (by decide),
    h.2.2.2.2.2.2.1 59⟩

theorem deleteItemsLoop_rows_sublist (mn : String) :
    ∀ (ids : List Nat) (st : SysState),
      (deleteItemsLoop mn st ids).1.db.rows.Sublist st.db.rows := by
  intro ids
  induction ids with
  | nil => intro st; exact List.Sublist.refl _
  | cons j rest ih =>
    intro st
    rw [deleteItemsLoop]
    cases hj : dbGet st.db j with
    | some it =>
      simp only
      exact ((ih _).trans (List.eraseP_sublist _)).trans (List.Sublist.refl _)
    | none => simpa using ih st

theorem dbGet_none_after_loop (mn : String) (ids : List Nat) (st : SysState) (i : Nat)
    (h : dbGet st.db i = none) :
    dbGet (deleteItemsLoop mn st ids).1.db i = none :=
  (deleteItemsLoop_rows_sublist mn ids st).find?_eq_none h

theorem deleteItemsLoop_skip_filter (mn : String) (i : Nat) :
    ∀ (ids : List Nat) (st : SysState), dbGet st.db i = none →
      (deleteItemsLoop mn st ids).1
          = (deleteItemsLoop mn st (ids.filter (fun j => j != i))).1
        ∧ (deleteItemsLoop mn st ids).2.1
          = (deleteItemsLoop mn st (ids.filter (fun j => j != i))).2.1 := by
  intro ids
  induction ids with
  | nil => intro st _; exact ⟨rfl, rfl⟩
  | cons j rest ih =>
    intro st hmiss
    by_cases hji : j = i
    · subst hji
      have hkeep : (j :: rest).filter (fun k => k != j) = rest.filter (fun k => k != j) := by
        simp [List.filter_cons]
      rw [hkeep, deleteItemsLoop, hmiss]
      exact ih st hmiss
    · have hkeep : (j :: rest).filter (fun k => k != i)
          = j :: rest.filter (fun k => k != i) := by
        simp [List.filter_cons, hji]
      rw [hkeep, deleteItemsLoop, deleteItemsLoop]
      cases hj : dbGet st.db j with
      | some it =>
        simp only
        have hmiss' : dbGet (⟨dbDeleteRow st.db j,
            cacheDelete st.cache (idKey mn j)⟩ : SysState).db i = none :=
          (List.eraseP_sublist _).find?_eq_none hmiss
        obtain ⟨h1, h2⟩ := ih _ hmiss'
        constructor
        · exact h1
        · simp [h2]
      | none =>
        simp only
        obtain ⟨h1, h2⟩ := ih st hmiss
        exact ⟨h1, by simp [h2]⟩

theorem skipMissing_mem_loop (mn : String) (i : Nat) :
    ∀ (ids : List Nat) (st : SysState), dbGet st.db i = none → i ∈ ids →
      (.skipMissing i : LogEvent) ∈ (deleteItemsLoop mn st ids).2.2 := by
  intro ids
  induction ids with
  | nil => intro st _ hmem; simp at hmem
  | cons j rest ih =>
    intro st hmiss hmem
    rw [deleteItemsLoop]
    by_cases hji : j = i
    · subst hji
      rw [hmiss]
      simp only [List.mem_cons]
      left
      trivial
    · rcases List.mem_cons.mp hmem with hcase | hcase
      · exact absurd hcase.symm hji
      · cases hj : dbGet st.db j with
        | some it =>
          simp only
          exact ih _ ((List.eraseP_sublist _).find?_eq_none hmiss) hcase
        | none =>
          simp only [List.mem_cons]
          right
          exact ih st hmiss hcase

/-- **C6**: deleting an absent id fails with 404 at the single-item
level and changes nothing, while a bulk delete whose id list contains
the absent id succeeds, logs a skip diagnostic for it, and processes
the remaining ids exactly as it would without the absent id (same final
state and same deleted count as the run over the other ids). -/
theorem C6_missing_id_single_vs_bulk (mn : String) (st : SysState) (i : Nat)
    (ids : List Nat) (hmiss : dbGet st.db i = none) (hmem : i ∈ ids)
    (hne : ids ≠ []) :
    deleteItem mn st i = (.error .notFound, st)
    ∧ (deleteItems mn st ids).1 = .ok ()
    ∧ (.skipMissing i : LogEvent) ∈ (deleteItems mn st ids).2.2
    ∧ (deleteItemsLoop mn st ids).1
        = (deleteItemsLoop mn st (ids.filter (fun j => j != i))).1
    ∧ (deleteItemsLoop mn st ids).2.1
        = (deleteItemsLoop mn st (ids.filter (fun j => j != i))).2.1 := by
  have hne' : ids.isEmpty = false := by
    cases ids with
    | nil => exact absurd rfl hne
    | cons a l => rfl
  obtain ⟨h1, h2⟩ := deleteItemsLoop_skip_filter mn i ids st hmiss
  refine ⟨by rw [deleteItem, hmiss], ?_, ?_, h1, h2⟩
  · simp [deleteItems, hne']
  · simp only [deleteItems, hne', Bool.false_eq_true, if_false]
    exact List.mem_append_left _ (skipMissing_mem_loop mn i ids st hmiss hmem)

/-- Closed witness for `C6_missing_id_single_vs_bulk`. -/
theorem C6_witness :
    deleteItem "item" ⟨⟨[rowA], 2⟩, []⟩ 7 = (.error .notFound, ⟨⟨[rowA], 2⟩, []⟩)
    ∧ (deleteItems "item" ⟨⟨[rowA], 2⟩, []⟩ [7, 1]).1 = .ok ()
    ∧ (.skipMissing 7 : LogEvent) ∈ (deleteItems "item" ⟨⟨[rowA], 2⟩, []⟩ [7, 1]).2.2
    ∧ (deleteItemsLoop "item" ⟨⟨[rowA], 2⟩, []⟩ [7, 1]).1
        = (deleteItemsLoop "item" ⟨⟨[rowA], 2⟩, []⟩ ([7, 1].filter (fun j => j != 7))).1
    ∧ (deleteItemsLoop "item" ⟨⟨[rowA], 2⟩, []⟩ [7, 1]).2.1
        = (deleteItemsLoop "item" ⟨⟨[rowA], 2⟩, []⟩ ([7, 1].filter (fun j => j != 7))).2.1 :=
  C6_missing_id_single_vs_bulk "item" ⟨⟨[rowA], 2⟩, []⟩ 7 [7, 1] (by decide)
    (by decide) (by decide)

/-- **C7, counterexample.**  The claim says bulk delete "reports to the
caller" how many requested ids were deleted.  The route responds
`204 No Content` with no body: two runs over the same id list, one
deleting 2 rows and one deleting 0, produce *identical* responses — the
deleted count reaches only the log. -/
theorem C7_counterexample_response_carries_no_count :
    (deleteItems "item" ⟨⟨[rowA, rowB], 3⟩, []⟩ [1, 2]).1
        = (deleteItems "item" ⟨⟨[], 3⟩, []⟩ [1, 2]).1
    ∧ (.deletedReport 2 2 : LogEvent) ∈ (deleteItems "item" ⟨⟨[rowA, rowB], 3⟩, []⟩ [1, 2]).2.2
    ∧ (.deletedReport 0 2 : LogEvent) ∈ (deleteItems "item" ⟨⟨[], 3⟩, []⟩ [1, 2]).2.2 :=
  ⟨rfl, by decide, by decide⟩

theorem deleteItemsLoop_cons_found (mn : String) (st : SysState) (j : Nat)
    (rest : List Nat) (it : Entity) (hj : dbGet st.db j = some it) :
    deleteItemsLoop mn st (j :: rest)
      = ((deleteItemsLoop mn ⟨dbDeleteRow st.db j, cacheDelete st.cache (idKey mn j)⟩ rest).1,
         (deleteItemsLoop mn ⟨dbDeleteRow st.db j, cacheDelete st.cache (idKey mn j)⟩ rest).2.1 + 1,
         (deleteItemsLoop mn ⟨dbDeleteRow st.db j, cacheDelete st.cache (idKey mn j)⟩ rest).2.2) := by
  rw [deleteItemsLoop, hj]

theorem deleteItemsLoop_cons_missing (mn : String) (st : SysState) (j : Nat)
    (rest : List Nat) (hj : dbGet st.db j = none) :
    deleteItemsLoop mn st (j :: rest)
      = ((deleteItemsLoop mn st rest).1, (deleteItemsLoop mn st rest).2.1,
         .skipMissing j :: (deleteItemsLoop mn st rest).2.2) := by
  rw [deleteItemsLoop, hj]

theorem deleteItemsLoop_count_deleted (mn : String) :
    ∀ (ids : List Nat) (st : SysState),
      (deleteItemsLoop mn st ids).2.1 + (deleteItemsLoop mn st ids).1.db.rows.length
        = st.db.rows.length := by
  intro ids
  induction ids with
  | nil => intro st; simp [deleteItemsLoop]
  | cons j rest ih =>
    intro st
    cases hj : dbGet st.db j with
    | some it =>
      rw [deleteItemsLoop_cons_found mn st j rest it hj]
      dsimp only
      have hlen : (st.db.rows.eraseP (rowHasId j)).length = st.db.rows.length - 1 :=
        List.length_eraseP_of_mem (List.mem_of_find?_eq_some hj) (List.find?_some hj)
      have hpos : 1 ≤ st.db.rows.length :=
        List.length_pos.mpr (List.ne_nil_of_mem (List.mem_of_find?_eq_some hj))
      have hrec := ih (⟨dbDeleteRow st.db j, cacheDelete st.cache (idKey mn j)⟩ : SysState)
      have hR : (⟨dbDeleteRow st.db j, cacheDelete st.cache (idKey mn j)⟩ : SysState).db.rows.length
          = st.db.rows.length - 1 := hlen
      rw [hR] at hrec
      omega
    | none =>
      rw [deleteItemsLoop_cons_missing mn st j rest hj]
      dsimp only
      exact ih st

/-- **C7, amended**: an empty id list is rejected with bad-request and
nothing happens; for a non-empty list the route succeeds with a bodiless
204 response and *logs* (rather than returns) the diagnostic
`deletedReport`, whose deleted count equals the number of rows actually
removed from the store. -/
theorem C7_bulk_delete_count_logged (mn : String) (st : SysState)
    (ids0 idsN : List Nat) :
    (ids0 = [] → deleteItems mn st ids0 = (.error .badRequest, st, []))
    ∧ (idsN ≠ [] →
        (deleteItems mn st idsN).1 = .ok ()
        ∧ (deleteItems mn st idsN).2.2
            = (deleteItemsLoop mn st idsN).2.2
              ++ [.deletedReport (deleteItemsLoop mn st idsN).2.1 idsN.length]
        ∧ (deleteItemsLoop mn st idsN).2.1
            = st.db.rows.length - (deleteItems mn st idsN).2.1.db.rows.length) := by
  constructor
  · rintro rfl
    rfl
  · intro hne
    have hne' : idsN.isEmpty = false := by
      cases idsN with
      | nil => exact absurd rfl hne
      | cons a l => rfl
    have hcnt := deleteItemsLoop_count_deleted mn idsN st
    refine ⟨by simp [deleteItems, hne'], by simp [deleteItems, hne'], ?_⟩
    simp only [deleteItems, hne', Bool.false_eq_true, if_false]
    omega

/-- Closed witness for `C7_bulk_delete_count_logged`. -/
theorem C7_witness :
    (([] : List Nat) = [] →
      deleteItems "item" ⟨⟨[rowA, rowB], 3⟩, []⟩ []
        = (.error .badRequest, ⟨⟨[rowA, rowB], 3⟩, []⟩, []))
    ∧ (([1, 7] : List Nat) ≠ [] →
        (deleteItems "item" ⟨⟨[rowA, rowB], 3⟩, []⟩ [1, 7]).1 = .ok ()
        ∧ (deleteItems "item" ⟨⟨[rowA, rowB], 3⟩, []⟩ [1, 7]).2.2
            = (deleteItemsLoop "item" ⟨⟨[rowA, rowB], 3⟩, []⟩ [1, 7]).2.2
              ++ [.deletedReport
                    (deleteItemsLoop "item" ⟨⟨[rowA, rowB], 3⟩, []⟩ [1, 7]).2.1 2]
        ∧ (deleteItemsLoop "item" ⟨⟨[rowA, rowB], 3⟩, []⟩ [1, 7]).2.1
            = 2 - (deleteItems "item" ⟨⟨[rowA, rowB], 3⟩, []⟩ [1, 7]).2.1.db.rows.length) :=
  C7_bulk_delete_count_logged "item" ⟨⟨[rowA, rowB], 3⟩, []⟩ [] [1, 7]

theorem sessionsGet_sessionsSet_self (s : SessionsState) (tok : Chars) (entry : SessEntry) :
    sessionsGet (sessionsSet s tok entry) tok = some entry.data := by
  simp [sessionsGet, sessionsSet, List.lookup_cons]

/-- **C8**: login with no record matching the conjunction of equality on
all login fields fails with 401 and leaves the session store unchanged;
with a match, it returns the supplied fresh token together with the
matched record restricted to the login fields, and stores a session
entry mapping the token to that same restriction with the configured
expiration. -/
theorem C8_login_behaviour (lf : List Field) (loginTtl : Nat) (dbN dbM : DB)
    (sess : SessionsState) (data : List (Field × Val)) (token : Chars) :
    (dbN.rows.find? (loginMatches lf data) = none →
      loginRoute lf loginTtl dbN sess data token = (.error .unauthorized, sess))
    ∧ (∀ user, dbM.rows.find? (loginMatches lf data) = some user →
        loginMatches lf data user = true
        ∧ loginRoute lf loginTtl dbM sess data token
            = (.ok (token, restrictFields lf user),
               sessionsSet sess token ⟨restrictFields lf user, loginTtl⟩)
        ∧ sessionsGet (loginRoute lf loginTtl dbM sess data token).2 token
            = some (restrictFields lf user)
        ∧ (((loginRoute lf loginTtl dbM sess data token).2.lookup token).map
            (·.expire)) = some loginTtl) := by
  constructor
  · intro h
    rw [loginRoute, h]
  · intro user h
    refine ⟨List.find?_some h, by rw [loginRoute, h], ?_, ?_⟩
    · rw [loginRoute, h]
      exact sessionsGet_sessionsSet_self sess token _
    · rw [loginRoute, h]
      simp [sessionsSet, List.lookup_cons]

/-- Closed witness for `C8_login_behaviour`. -/
theorem C8_witness :
    ((⟨[], 1⟩ : DB).rows.find? (loginMatches ["email"] [("email", Val.vstr "a@x.com")]) = none →
      loginRoute ["email"] 3600 ⟨[], 1⟩ [] [("email", Val.vstr "a@x.com")] "t0".toList
        = (.error .unauthorized, []))
    ∧ (∀ user,
        (⟨[rowU], 2⟩ : DB).rows.find? (loginMatches ["email"] [("email", Val.vstr "a@x.com")])
            = some user →
        loginMatches ["email"] [("email", Val.vstr "a@x.com")] user = true
        ∧ loginRoute ["email"] 3600 ⟨[rowU], 2⟩ [] [("email", Val.vstr "a@x.com")] "t0".toList
            = (.ok ("t0".toList, restrictFields ["email"] user),
               sessionsSet [] "t0".toList ⟨restrictFields ["email"] user, 3600⟩)
        ∧ sessionsGet (loginRoute ["email"] 3600 ⟨[rowU], 2⟩ []
              [("email", Val.vstr "a@x.com")] "t0".toList).2 "t0".toList
            = some (restrictFields ["email"] user)
        ∧ (((loginRoute ["email"] 3600 ⟨[rowU], 2⟩ []
              [("email", Val.vstr "a@x.com")] "t0".toList).2.lookup "t0".toList).map
            (·.expire)) = some 3600) :=
  C8_login_behaviour ["email"] 3600 ⟨[], 1⟩ ⟨[rowU], 2⟩ [] [("email", Val.vstr "a@x.com")]
    "t0".toList

theorem startsWithL_append (pat s : Chars) : startsWithL pat (pat ++ s) = true := by
  induction pat with
  | nil => rfl
  | cons p ps ih => simp [startsWithL, ih]

theorem stripAllOcc_append_self (pat s : Chars) (hne : pat ≠ []) :
    stripAllOcc pat (pat ++ s) = stripAllOcc pat s := by
  cases pat with
  | nil => exact absurd rfl hne
  | cons p ps =>
    rw [List.cons_append, stripAllOcc,
      if_pos (⟨hne, by rw [← List.cons_append]; exact startsWithL_append (p :: ps) s⟩ :
        (p :: ps ≠ [] ∧ startsWithL (p :: ps) (p :: (ps ++ s)) = true))]
    rw [← List.cons_append, List.drop_left]

theorem stripAllOcc_of_hasOcc_eq_false (pat : Chars) :
    ∀ s : Chars, hasOcc pat s = false → stripAllOcc pat s = s := by
  intro s
  induction s with
  | nil => intro _; rw [stripAllOcc]
  | cons c rest ih =>
    intro h
    rw [hasOcc, Bool.or_eq_false_iff] at h
    rw [stripAllOcc, if_neg (fun hc => by rw [h.1] at hc; exact Bool.false_ne_true hc.2),
      ih h.2]

theorem stripAllOcc_length_le_fuel (pat : Chars) :
    ∀ (n : Nat) (s : Chars), s.length ≤ n → (stripAllOcc pat s).length ≤ s.length := by
  intro n
  induction n with
  | zero =>
    intro s hs
    cases s with
    | nil => rw [stripAllOcc]
    | cons c rest => simp at hs
  | succ n ih =>
    intro s hs
    cases s with
    | nil => rw [stripAllOcc]
    | cons c rest =>
      by_cases hcond : pat ≠ [] ∧ startsWithL pat (c :: rest) = true
      · rw [stripAllOcc, if_pos hcond]
        have hplen : 1 ≤ pat.length := by
          cases pat with
          | nil => exact absurd rfl hcond.1
          | cons q qs => simp
        have hdl : ((c :: rest).drop pat.length).length = (c :: rest).length - pat.length :=
          List.length_drop _ _
        have hrec := ih ((c :: rest).drop pat.length)
          (by rw [hdl]; simp only [List.length_cons] at hs ⊢; omega)
        simp only [List.length_cons] at *
        omega
      · rw [stripAllOcc, if_neg hcond]
        have hrec := ih rest (by simp only [List.length_cons] at hs; omega)
        simp only [List.length_cons]
        omega

theorem stripAllOcc_length_le (pat s : Chars) :
    (stripAllOcc pat s).length ≤ s.length :=
  stripAllOcc_length_le_fuel pat s.length s (Nat.le_refl _)

theorem stripAllOcc_length_lt (pat : Chars) (hne : pat ≠ []) :
    ∀ s : Chars, hasOcc pat s = true → (stripAllOcc pat s).length < s.length := by
  intro s
  induction s with
  | nil =>
    intro h
    cases pat with
    | nil => exact absurd rfl hne
    | cons q qs => exact absurd h (by rw [hasOcc]; simp [startsWithL])
  | cons c rest ih =>
    intro h
    by_cases hs : startsWithL pat (c :: rest) = true
    · rw [stripAllOcc, if_pos ⟨hne, hs⟩]
      have hplen : 1 ≤ pat.length := by
        cases pat with
        | nil => exact absurd rfl hne
        | cons q qs => simp
      have h1 := stripAllOcc_length_le pat ((c :: rest).drop pat.length)
      rw [List.length_drop] at h1
      simp only [List.length_cons] at *
      omega
    · have h2 : hasOcc pat rest = true := by
        rw [hasOcc] at h
        rcases Bool.or_eq_true_iff.mp h with hcase | hcase
        · exact absurd hcase hs
        · exact hcase
      rw [stripAllOcc, if_neg (fun hc => hs hc.2)]
      simp only [List.length_cons]
      exact Nat.succ_lt_succ (ih h2)

theorem stripAllOcc_eq_self_iff (pat : Chars) (hne : pat ≠ []) (s : Chars) :
    stripAllOcc pat s = s ↔ hasOcc pat s = false := by
  constructor
  · intro he
    cases hocc : hasOcc pat s with
    | false => rfl
    | true =>
      have := stripAllOcc_length_lt pat hne s hocc
      rw [he] at this
      exact absurd this (Nat.lt_irrefl _)
  · exact stripAllOcc_of_hasOcc_eq_false pat s

/-- **C9**: for a header of the form `"Bearer " ++ rest`, both token
verification and logout look up `authorization.replace("Bearer ", "")`,
i.e. the header with *every* occurrence of `"Bearer "` removed — the
prefix is consumed and the removal continues inside `rest` — and the
looked-up token equals `rest` exactly when `rest` contains no further
occurrence of `"Bearer "`. -/
theorem C9_replace_removes_all_occurrences (rest : Chars) (sess : SessionsState) :
    tokenOf (bearerChars ++ rest) = stripAllOcc bearerChars rest
    ∧ verifyToken sess (bearerChars ++ rest)
        = (match sessionsGet sess (stripAllOcc bearerChars rest) with
           | none => .error .unauthorized
           | some d => .ok d)
    ∧ logoutRoute sess (bearerChars ++ rest)
        = (if (sess.lookup (stripAllOcc bearerChars rest)).isSome then
             (.ok (), sessionsDelete sess (stripAllOcc bearerChars rest))
           else (.error .unauthorized, sess))
    ∧ (stripAllOcc bearerChars rest = rest ↔ hasOcc bearerChars rest = false) := by
  have hbne : bearerChars ≠ [] := by decide
  have htok : tokenOf (bearerChars ++ rest) = stripAllOcc bearerChars rest :=
    stripAllOcc_append_self bearerChars rest hbne
  refine ⟨htok, ?_, ?_, stripAllOcc_eq_self_iff bearerChars hbne rest⟩
  · rw [verifyToken, htok, if_pos (startsWithL_append bearerChars rest)]
  · rw [logoutRoute, htok, if_pos (startsWithL_append bearerChars rest)]

/-- Closed witness for `C9_replace_removes_all_occurrences`: for the
header `"Bearer Bearer abc"` the looked-up token is not the
prefix-stripped remainder `"Bearer abc"`. -/
theorem C9_witness :
    tokenOf (bearerChars ++ "Bearer abc".toList)
        = stripAllOcc bearerChars ("Bearer abc".toList)
    ∧ stripAllOcc bearerChars ("Bearer abc".toList) ≠ "Bearer abc".toList := by
  have h := C9_replace_removes_all_occurrences ("Bearer abc".toList) []
  refine ⟨h.1, fun he => ?_⟩
  exact absurd (h.2.2.2.mp he) (by decide)

theorem applyBulkEntry_cons (item : Entity) (k : Field) (v : Val)
    (rest : List (Field × Val)) :
    applyBulkEntry item ((k, v) :: rest)
      = applyBulkEntry
          (if k ≠ "id" ∧ hasattrB item k = true then setattrE item k v else item) rest :=
  rfl

theorem getattrOpt_applyBulkEntry_id :
    ∀ (data : List (Field × Val)) (item : Entity),
      getattrOpt (applyBulkEntry item data) "id" = getattrOpt item "id" := by
  intro data
  induction data with
  | nil => intro item; rfl
  | cons kv rest ih =>
    intro item
    obtain ⟨k, v⟩ := kv
    rw [applyBulkEntry_cons]
    by_cases hg : k ≠ "id" ∧ hasattrB item k = true
    · rw [if_pos hg, ih (setattrE item k v)]
      exact getattrOpt_setattrE_ne item v (Ne.symm hg.1)
    · rw [if_neg hg, ih item]

theorem hasattrB_applyBulkEntry :
    ∀ (data : List (Field × Val)) (item : Entity) (g : Field),
      hasattrB (applyBulkEntry item data) g = hasattrB item g := by
  intro data
  induction data with
  | nil => intro item g; rfl
  | cons kv rest ih =>
    intro item g
    obtain ⟨k, v⟩ := kv
    rw [applyBulkEntry_cons]
    by_cases hg : k ≠ "id" ∧ hasattrB item k = true
    · rw [if_pos hg, ih (setattrE item k v) g, hasattrB_setattrE item k g v hg.2]
    · rw [if_neg hg, ih item g]

theorem getattrOpt_applyBulkEntry_not_mem :
    ∀ (data : List (Field × Val)) (item : Entity) (g : Field),
      g ∉ data.map Prod.fst →
      getattrOpt (applyBulkEntry item data) g = getattrOpt item g := by
  intro data
  induction data with
  | nil => intro item g _; rfl
  | cons kv rest ih =>
    intro item g hg
    obtain ⟨k, v⟩ := kv
    simp only [List.map_cons, List.mem_cons, not_or] at hg
    rw [applyBulkEntry_cons]
    by_cases hguard : k ≠ "id" ∧ hasattrB item k = true
    · rw [if_pos hguard, ih (setattrE item k v) g hg.2]
      exact getattrOpt_setattrE_ne item v hg.1
    · rw [if_neg hguard, ih item g hg.2]

theorem getattrOpt_applyBulkEntry_not_attr :
    ∀ (data : List (Field × Val)) (item : Entity) (g : Field),
      hasattrB item g = false →
      getattrOpt (applyBulkEntry item data) g = getattrOpt item g := by
  intro data
  induction data with
  | nil => intro item g _; rfl
  | cons kv rest ih =>
    intro item g hg
    obtain ⟨k, v⟩ := kv
    rw [applyBulkEntry_cons]
    by_cases hguard : k ≠ "id" ∧ hasattrB item k = true
    · have hgk : g ≠ k := fun he => by rw [he, hguard.2] at hg; cases hg
      rw [if_pos hguard,
        ih (setattrE item k v) g (by rw [hasattrB_setattrE item k g v hguard.2]; exact hg)]
      exact getattrOpt_setattrE_ne item v hgk
    · rw [if_neg hguard, ih item g hg]

theorem getattrOpt_applyBulkEntry_mem :
    ∀ (data : List (Field × Val)) (item : Entity) (g : Field),
      (data.map Prod.fst).Nodup → g ≠ "id" → hasattrB item g = true →
      g ∈ data.map Prod.fst →
      getattrOpt (applyBulkEntry item data) g = data.lookup g := by
  intro data
  induction data with
  | nil => intro item g _ _ _ hmem; simp at hmem
  | cons kv rest ih =>
    intro item g hnd hgid hattr hmem
    obtain ⟨k, v⟩ := kv
    simp only [List.map_cons, List.nodup_cons] at hnd
    rw [applyBulkEntry_cons]
    by_cases hgk : g = k
    · subst hgk
      rw [if_pos ⟨hgid, hattr⟩,
        getattrOpt_applyBulkEntry_not_mem rest (setattrE item g v) g hnd.1]
      simp [List.lookup_cons]
    · simp only [List.map_cons, List.mem_cons] at hmem
      have hmem' := hmem.resolve_left hgk
      have hlook : ((k, v) :: rest).lookup g = rest.lookup g := by
        simp [List.lookup_cons, beq_false_of_ne hgk]
      rw [hlook]
      by_cases hguard : k ≠ "id" ∧ hasattrB item k = true
      · rw [if_pos hguard]
        exact ih (setattrE item k v) g hnd.2 hgid
          (by rw [hasattrB_setattrE item k g v hguard.2]; exact hattr) hmem'
      · rw [if_neg hguard]
        exact ih item g hnd.2 hgid hattr hmem'

/-- **C10**: applying a bulk-update entry to a found item never modifies
the item's `"id"` field; entry keys that are not attributes of the item
are silently ignored; only non-`"id"` keys that are attributes are
written (taking the entry's value); every other stored field keeps its
prior value. -/
theorem C10_bulk_entry_frame (item : Entity) (data : List (Field × Val))
    (hnd : (data.map Prod.fst).Nodup) :
    getattrOpt (applyBulkEntry item data) "id" = getattrOpt item "id"
    ∧ (∀ k, hasattrB item k = false →
        getattrOpt (applyBulkEntry item data) k = getattrOpt item k)
    ∧ (∀ k, k ∉ data.map Prod.fst →
        getattrOpt (applyBulkEntry item data) k = getattrOpt item k)
    ∧ (∀ k, k ≠ "id" → hasattrB item k = true → k ∈ data.map Prod.fst →
        getattrOpt (applyBulkEntry item data) k = data.lookup k) :=
  ⟨getattrOpt_applyBulkEntry_id data item,
   fun k hk => getattrOpt_applyBulkEntry_not_attr data item k hk,
   fun k hk => getattrOpt_applyBulkEntry_not_mem data item k hk,
   fun k h1 h2 h3 => getattrOpt_applyBulkEntry_mem data item k hnd h1 h2 h3⟩

/-- Closed witness for `C10_bulk_entry_frame`: an entry carrying an
`"id"` key, a real attribute key, and an unknown key. -/
theorem C10_witness :
    getattrOpt (applyBulkEntry rowA
        [("id", Val.vnat 9), ("name", Val.vstr "N"), ("ghost", Val.vstr "g")]) "id"
      = getattrOpt rowA "id"
    ∧ (∀ k, hasattrB rowA k = false →
        getattrOpt (applyBulkEntry rowA
            [("id", Val.vnat 9), ("name", Val.vstr "N"), ("ghost", Val.vstr "g")]) k
          = getattrOpt rowA k)
    ∧ (∀ k, k ∉ ([("id", Val.vnat 9), ("name", Val.vstr "N"),
          ("ghost", Val.vstr "g")].map Prod.fst) →
        getattrOpt (applyBulkEntry rowA
            [("id", Val.vnat 9), ("name", Val.vstr "N"), ("ghost", Val.vstr "g")]) k
          = getattrOpt rowA k)
    ∧ (∀ k, k ≠ "id" → hasattrB rowA k = true →
        k ∈ ([("id", Val.vnat 9), ("name", Val.vstr "N"),
          ("ghost", Val.vstr "g")].map Prod.fst) →
        getattrOpt (applyBulkEntry rowA
            [("id", Val.vnat 9), ("name", Val.vstr "N"), ("ghost", Val.vstr "g")]) k
          = [("id", Val.vnat 9), ("name", Val.vstr "N"),
             ("ghost", Val.vstr "g")].lookup k) :=
  C10_bulk_entry_frame rowA
    [("id", Val.vnat 9), ("name", Val.vstr "N"), ("ghost", Val.vstr "g")] (by decide)

end AutoRoutes
